import Mathlib

/-!
Shallow embedding of the AI wargame skeleton (`src/ai_wargame_skeleton.py`)
and proofs about its legal-move classification, move effects, heuristics,
time-budget controller, search-tree construction and minimax / alpha-beta
search.

Modelling conventions:
* Python `int` is modelled by `Int` (board coordinates, health values),
  Python `float` quantities that carry exact decimal constants (heuristic
  scores with the `1.5` weight, the time-ratio controller) are modelled by
  `ℚ`; all constants involved are exact decimal fractions.
* The mutable `Game` object is modelled as a value; methods that mutate
  `self` become functions `Game → ... → Game`.
* The board `list[list[Unit | None]]` is kept as `List (List (Option Unit))`,
  with `List.getD` / `List.set` for the index accesses.  Python's
  `is_empty` indexes the board without a bounds check; in the source it is
  only ever called behind an `is_valid_coord` guard, so total `getD`
  indexing agrees with it on every reachable call.
* String results (`"valid move"`, `"attack"`, rejection messages) are
  represented by the enumerations `MoveType` and `Reason`, one constructor
  per distinct string produced by `Game.is_valid_move`.
* File logging and `print` calls are presentation-layer effects and are
  dropped; they do not touch the game state.
-/

namespace Wargame

/-- Every unit type (`UnitType`, source lines 30-36). -/
inductive UnitType where
  | AI
  | Tech
  | Virus
  | Program
  | Firewall
deriving DecidableEq, Repr

/-- Index of a unit type in the damage/repair tables (`UnitType` enum values 0..4). -/
def UnitType.value : UnitType → Nat
  | .AI => 0
  | .Tech => 1
  | .Virus => 2
  | .Program => 3
  | .Firewall => 4

/-- The 2 players (`Player`, source lines 39-49). -/
inductive Player where
  | Attacker
  | Defender
deriving DecidableEq, Repr

/-- The next (other) player (`Player.next`, source lines 44-49). -/
def Player.next : Player → Player
  | .Attacker => .Defender
  | .Defender => .Attacker

/-- A unit on the board (`Unit` dataclass, source lines 62-66).  Health is a
Python `int`; the dataclass default is health 9. -/
structure Unit where
  player : Player
  type : UnitType
  health : Int
deriving DecidableEq, Repr

/-- Damage table (`Unit.damage_table`, source lines 68-74), rows/columns in
`UnitType.value` order AI, Tech, Virus, Program, Firewall. -/
def Unit.damage_table : List (List Int) :=
  [[3, 3, 3, 3, 1],
   [1, 1, 6, 1, 1],
   [9, 6, 1, 6, 1],
   [3, 3, 3, 3, 1],
   [1, 1, 1, 1, 1]]

/-- Repair table (`Unit.repair_table`, source lines 76-82). -/
def Unit.repair_table : List (List Int) :=
  [[0, 1, 1, 0, 0],
   [3, 0, 0, 3, 3],
   [0, 0, 0, 0, 0],
   [0, 0, 0, 0, 0],
   [0, 0, 0, 0, 0]]

/-- Table lookup `damage_table[a.value][b.value]` (used at source lines 612-613). -/
def damageLookup (a b : UnitType) : Int :=
  (Unit.damage_table.getD a.value []).getD b.value 0

/-- Table lookup `repair_table[a.value][b.value]` (used at source line 620). -/
def repairLookup (a b : UnitType) : Int :=
  (Unit.repair_table.getD a.value []).getD b.value 0

/-- Are we alive? (`Unit.is_alive`, source lines 84-86). -/
def Unit.is_alive (u : Unit) : Bool :=
  u.health > 0

/-- Clamp of `Unit.mod_health` (source lines 88-94): health is forced into [0, 9]. -/
def clamp09 (h : Int) : Int :=
  if h < 0 then 0 else if h > 9 then 9 else h

/-- Modify this unit's health by a delta amount (`Unit.mod_health`, source lines 88-94). -/
def Unit.mod_health (u : Unit) (health_delta : Int) : Unit :=
  { u with health := clamp09 (u.health + health_delta) }

/-- A game cell coordinate (`Coord`, source lines 123-127); Python ints may be
negative (e.g. the out-of-board neighbours produced by `iter_adjacent`). -/
structure Coord where
  row : Int
  col : Int
deriving DecidableEq, Repr

/-- The 4 orthogonally adjacent coords in source order up, left, down, right
(`Coord.iter_adjacent`, source lines 161-166). -/
def Coord.iter_adjacent (c : Coord) : List Coord :=
  [⟨c.row - 1, c.col⟩, ⟨c.row, c.col - 1⟩, ⟨c.row + 1, c.col⟩, ⟨c.row, c.col + 1⟩]

/-- All 8 adjacent coordinates including diagonals, in source order
(`Coord.iter_all8_adjacent`, source lines 174-186). -/
def Coord.iter_all8_adjacent (c : Coord) : List Coord :=
  [⟨c.row - 1, c.col⟩, ⟨c.row + 1, c.col⟩, ⟨c.row, c.col - 1⟩, ⟨c.row, c.col + 1⟩,
   ⟨c.row - 1, c.col - 1⟩, ⟨c.row - 1, c.col + 1⟩, ⟨c.row + 1, c.col - 1⟩, ⟨c.row + 1, c.col + 1⟩]

/-- A game move or rectangular area via 2 coords (`CoordPair`, source lines 205-209). -/
structure CoordPair where
  src : Coord
  dst : Coord
deriving DecidableEq, Repr

/-- Python `range(a, b)` over `Int` endpoints, as a list. -/
def intRange (a b : Int) : List Int :=
  (List.range (b - a).toNat).map (fun i => a + (i : Int))

/-- Cells of a rectangular area (`CoordPair.iter_rectangle`, source lines 223-227). -/
def CoordPair.iter_rectangle (cp : CoordPair) : List Coord :=
  (intRange cp.src.row (cp.dst.row + 1)).flatMap
    (fun r => (intRange cp.src.col (cp.dst.col + 1)).map (fun c => Coord.mk r c))

/-- A CoordPair based on a dim-sized rectangle (`CoordPair.from_dim`, source lines 234-237). -/
def CoordPair.from_dim (dim : Int) : CoordPair :=
  ⟨⟨0, 0⟩, ⟨dim - 1, dim - 1⟩⟩

/-- Game options (`Options`, source lines 258-269); only the fields consulted
by the embedded core are kept (broker/game-type/randomize are collaborator
concerns). -/
structure Options where
  dim : Int := 5
  max_depth : Int := 4
  min_depth : Int := 2
  max_time : ℚ := 5
  alpha_beta : Bool := true
  max_turns : Int := 100
deriving DecidableEq, Repr

/-- The game state (`Game` dataclass, source lines 460-469).  The `stats`
diagnostics field is not part of any claim and is omitted. -/
structure Game where
  board : List (List (Option Unit))
  next_player : Player := .Attacker
  turns_played : Int := 0
  options : Options := {}
  _attacker_has_ai : Bool := true
  _defender_has_ai : Bool := true
deriving DecidableEq, Repr

/-- Check if a coord is valid within the board dimensions
(`Game.is_valid_coord`, source lines 756-761). -/
def Game.is_valid_coord (g : Game) (c : Coord) : Bool :=
  if c.row < 0 ∨ c.row ≥ g.options.dim ∨ c.col < 0 ∨ c.col ≥ g.options.dim then false else true

/-- Raw board indexing `board[row][col]`, the body shared by `get` / `is_empty` /
`set`.  Total `getD` indexing; see the module comment about `is_empty`. -/
def Game.cell (g : Game) (c : Coord) : Option Unit :=
  (g.board.getD c.row.toNat []).getD c.col.toNat none

/-- Check if a board cell is empty (`Game.is_empty`, source lines 498-500;
in the source it is only called on valid coords). -/
def Game.is_empty (g : Game) (c : Coord) : Bool :=
  (g.cell c).isNone

/-- Get contents of a board cell (`Game.get`, source lines 502-507). -/
def Game.get (g : Game) (c : Coord) : Option Unit :=
  if g.is_valid_coord c then g.cell c else none

/-- Set contents of a board cell (`Game.set`, source lines 509-512). -/
def Game.set (g : Game) (c : Coord) (u : Option Unit) : Game :=
  if g.is_valid_coord c then
    { g with board := g.board.set c.row.toNat ((g.board.getD c.row.toNat []).set c.col.toNat u) }
  else g

/-- Remove unit at coord if dead, clearing the owner's has-AI flag when an AI
dies (`Game.remove_dead`, source lines 514-523). -/
def Game.remove_dead (g : Game) (c : Coord) : Game :=
  match g.get c with
  | some u =>
    if ¬ u.is_alive then
      let g1 := g.set c none
      if u.type = .AI then
        if u.player = .Attacker then { g1 with _attacker_has_ai := false }
        else { g1 with _defender_has_ai := false }
      else g1
    else g
  | none => g

/-- Modify health of the unit at a coord, then remove it if dead
(`Game.mod_health`, source lines 525-530). -/
def Game.mod_health (g : Game) (c : Coord) (health_delta : Int) : Game :=
  match g.get c with
  | some u => (g.set c (some (u.mod_health health_delta))).remove_dead c
  | none => g

/-- The default 5×5 starting position built by `Game.__post_init__`
(source lines 471-487), with `md = dim - 1 = 4`. -/
def initialGame : Game :=
  let g0 : Game := { board := List.replicate 5 (List.replicate 5 none) }
  ((((((((((((g0.set ⟨0, 0⟩ (some ⟨.Defender, .AI, 9⟩)).set
    ⟨1, 0⟩ (some ⟨.Defender, .Tech, 9⟩)).set
    ⟨0, 1⟩ (some ⟨.Defender, .Tech, 9⟩)).set
    ⟨2, 0⟩ (some ⟨.Defender, .Firewall, 9⟩)).set
    ⟨0, 2⟩ (some ⟨.Defender, .Firewall, 9⟩)).set
    ⟨1, 1⟩ (some ⟨.Defender, .Program, 9⟩)).set
    ⟨4, 4⟩ (some ⟨.Attacker, .AI, 9⟩)).set
    ⟨3, 4⟩ (some ⟨.Attacker, .Virus, 9⟩)).set
    ⟨4, 3⟩ (some ⟨.Attacker, .Virus, 9⟩)).set
    ⟨2, 4⟩ (some ⟨.Attacker, .Program, 9⟩)).set
    ⟨4, 2⟩ (some ⟨.Attacker, .Program, 9⟩)).set
    ⟨3, 3⟩ (some ⟨.Attacker, .Firewall, 9⟩))

/-- All units belonging to a player, in board-scan order
(`Game.player_units`, source lines 831-836). -/
def Game.player_units (g : Game) (p : Player) : List (Coord × Unit) :=
  ((CoordPair.from_dim g.options.dim).iter_rectangle).filterMap (fun c =>
    match g.get c with
    | some u => if u.player = p then some (c, u) else none
    | none => none)

/-- Per-unit contribution of heuristic e1 (the `+=` pairs inside
`Game.heuristic_1`, source lines 1140-1170); the Firewall weight 1.5 forces
rational scores. -/
def h1Score (u : Unit) : ℚ :=
  match u.type with
  | .Virus => 20 + (u.health : ℚ) * 2
  | .Tech => 20 + (u.health : ℚ) * 2
  | .Firewall => 15 + (u.health : ℚ) * (3 / 2)
  | .Program => 10 + (u.health : ℚ) * 1
  | .AI => 9999

/-- Heuristic e1: per-unit material + health weights, attacker minus defender
(`Game.heuristic_1`, source lines 1134-1172). -/
def Game.heuristic_1 (g : Game) : ℚ :=
  let attacker_score := (g.player_units .Attacker).foldl (fun s cu => s + h1Score cu.2) 0
  let defender_score := (g.player_units .Defender).foldl (fun s cu => s + h1Score cu.2) 0
  attacker_score - defender_score

/-- The classification string returned as the second component of
`Game.is_valid_move`, one constructor per distinct string in the source:
`"Invalid move"`, `"self-destruct"`, `"repair"`, `"attack"`, `"valid move"`. -/
inductive MoveType where
  | invalidMove
  | selfDestruct
  | repair
  | attack
  | validMove
deriving DecidableEq, Repr

/-- The error message returned as the third component of `Game.is_valid_move`,
one constructor per distinct message string in the source (lines 534-607). -/
inductive Reason where
  | offBoard
  | emptySource
  | wrongTurn
  | notAdjacent
  | aiCannotRepair
  | engagedInCombat
  | cannotRepairMaxed
  | attackerDirection
  | defenderDirection
deriving DecidableEq, Repr

/-- Does the destination cell hold an ally of a unit owned by `p`?
(the `not self.is_empty(coords.dst) and dst.player == src.player` tests). -/
def dstAllyOf (dst : Option Unit) (p : Player) : Bool :=
  match dst with
  | some d => d.player = p
  | none => false

/-- Does the destination cell hold an enemy of a unit owned by `p`?
(the `not self.is_empty(coords.dst) and dst.player != src.player` tests). -/
def dstEnemyOf (dst : Option Unit) (p : Player) : Bool :=
  match dst with
  | some d => d.player ≠ p
  | none => false

/-- Is some orthogonal neighbour of `c` occupied by an enemy of `p`?
(the engaged-in-combat loop of `Game.is_valid_move`, source lines 575-578). -/
def Game.enemyAdjacent (g : Game) (c : Coord) (p : Player) : Bool :=
  c.iter_adjacent.any (fun a =>
    g.is_valid_coord a && !(g.is_empty a) &&
      (match g.get a with
       | some e => decide (e.player ≠ p)
       | none => false))

/-- Is the destination an own Tech or Virus below full health, repairable by an
AI? (the condition at source line 563). -/
def dstRepairableByAI (dst : Option Unit) : Bool :=
  match dst with
  | some d => (d.type = .Tech ∨ d.type = .Virus) ∧ d.health < 9
  | none => false

/-- Directional constraint and final fall-through of `Game.is_valid_move`
(source lines 595-607): attacker AI/Firewall/Program only up or left, defender
AI/Firewall/Program only down or right, then `return dst is None, "valid move", None`. -/
def Game.is_valid_move_direction (g : Game) (coords : CoordPair) (src : Unit)
    (dst : Option Unit) : Bool × MoveType × Option Reason :=
  if src.player = .Attacker ∧
      (src.type = .AI ∨ src.type = .Firewall ∨ src.type = .Program) ∧
      (coords.src.row < coords.dst.row ∨ coords.src.col < coords.dst.col) then
    (false, .invalidMove, some .attackerDirection)
  else if src.player = .Defender ∧
      (src.type = .AI ∨ src.type = .Firewall ∨ src.type = .Program) ∧
      (coords.dst.row < coords.src.row ∨ coords.dst.col < coords.src.col) then
    (false, .invalidMove, some .defenderDirection)
  else (dst.isNone, .validMove, none)

/-- Tech/Virus block of `Game.is_valid_move` (source lines 580-593): attack an
enemy, Tech may repair an ally AI/Firewall/Program below full health (falling
through to the directional checks when the repair clause does not fire), a
Virus moving onto an ally is rejected. -/
def Game.is_valid_move_techvirus (g : Game) (coords : CoordPair) (src : Unit)
    (dst : Option Unit) : Bool × MoveType × Option Reason :=
  if src.type = .Tech ∨ src.type = .Virus then
    match dst with
    | some d =>
      if d.player ≠ src.player then (true, .attack, none)
      else if src.type = .Tech then
        if (d.type = .AI ∨ d.type = .Firewall ∨ d.type = .Program) ∧ d.health < 9 then
          (true, .repair, none)
        else g.is_valid_move_direction coords src dst
      else (false, .invalidMove, some .cannotRepairMaxed)
    | none => g.is_valid_move_direction coords src dst
  else g.is_valid_move_direction coords src dst

/-- AI/Firewall/Program block of `Game.is_valid_move` (source lines 568-578):
attack an adjacent enemy, otherwise reject when engaged in combat, otherwise
fall through to the Tech/Virus block (whose guard cannot fire) and the
directional checks. -/
def Game.is_valid_move_afp (g : Game) (coords : CoordPair) (src : Unit)
    (dst : Option Unit) : Bool × MoveType × Option Reason :=
  if src.type = .AI ∨ src.type = .Firewall ∨ src.type = .Program then
    if dstEnemyOf dst src.player then (true, .attack, none)
    else if g.enemyAdjacent coords.src src.player then
      (false, .invalidMove, some .engagedInCombat)
    else g.is_valid_move_techvirus coords src dst
  else g.is_valid_move_techvirus coords src dst

/-- Move classification (`Game.is_valid_move`, source lines 534-607), returning
the `(bool, move_type, error)` triple with strings replaced by `MoveType` and
`Reason` constructors.  The checks run in source order: bounds, empty source,
wrong turn, self-destruct, adjacency, AI repair, the AI/Firewall/Program
attack/engaged block, the Tech/Virus block, directional constraints, and
finally `(dst is None, "valid move", None)`. -/
def Game.is_valid_move (g : Game) (coords : CoordPair) : Bool × MoveType × Option Reason :=
  if ¬ g.is_valid_coord coords.src ∨ ¬ g.is_valid_coord coords.dst then
    (false, .invalidMove, some .offBoard)
  else
    match g.get coords.src with
    | none => (false, .invalidMove, some .emptySource)
    | some src =>
      let dst := g.get coords.dst
      if src.player ≠ g.next_player then (false, .invalidMove, some .wrongTurn)
      else if dst.isSome ∧ coords.src = coords.dst then (true, .selfDestruct, none)
      else if coords.dst ∉ coords.src.iter_adjacent then (false, .invalidMove, some .notAdjacent)
      else if src.type = .AI ∧ dstAllyOf dst src.player then
        if dstRepairableByAI dst then (true, .repair, none)
        else (false, .invalidMove, some .aiCannotRepair)
      else g.is_valid_move_afp coords src dst

/-- Attack resolution (`Game.perform_attack`, source lines 609-615):
simultaneous bidirectional table damage, source first then destination.
The source guarantees both cells are occupied for a classified attack;
the impossible empty cases (a Python `AttributeError`) leave the game
unchanged. -/
def Game.perform_attack (g : Game) (coords : CoordPair) : Game :=
  match g.get coords.src, g.get coords.dst with
  | some src, some dst =>
    let dstDamage := damageLookup src.type dst.type
    let srcDamage := damageLookup dst.type src.type
    (g.mod_health coords.src (-srcDamage)).mod_health coords.dst (-dstDamage)
  | _, _ => g

/-- Repair resolution (`Game.perform_repair`, source lines 617-621); the
impossible empty cases (a Python `AttributeError`) leave the game unchanged. -/
def Game.perform_repair (g : Game) (coords : CoordPair) : Game :=
  match g.get coords.src, g.get coords.dst with
  | some src, some dst => g.mod_health coords.dst (repairLookup src.type dst.type)
  | _, _ => g

/-- One step of the neighbour loop in `Game.perform_self_destruction`
(source lines 625-627). -/
def sdStep (gg : Game) (c : Coord) : Game :=
  if gg.is_valid_coord c ∧ ¬ gg.is_empty c then gg.mod_health c (-2) else gg

/-- Self-destruct resolution (`Game.perform_self_destruction`, source lines
623-627): zero the source's health, then subtract 2 from every occupied cell
among the 8 neighbours.  An empty source (a Python `AttributeError`,
impossible for a classified self-destruct) contributes a 0 delta. -/
def Game.perform_self_destruction (g : Game) (coords : CoordPair) : Game :=
  let g1 := g.mod_health coords.src (-(((g.get coords.src).map Unit.health).getD 0))
  coords.src.iter_all8_adjacent.foldl sdStep g1

/-- Validate and perform a move (`Game.perform_move`, source lines 659-684),
returning the `(success, result)` pair together with the updated state; file
logging is a presentation effect and is dropped.  When `is_valid` is true the
move type is always one of the four action strings; the `invalidMove` arm of
the match is unreachable (Python would fall through returning `None`). -/
def Game.perform_move (g : Game) (coords : CoordPair) : (Bool × String) × Game :=
  let r := g.is_valid_move coords
  if r.1 then
    match r.2.1 with
    | .validMove => ((true, "Move initiated"), (g.set coords.dst (g.get coords.src)).set coords.src none)
    | .attack => ((true, "Attack initiated"), g.perform_attack coords)
    | .repair => ((true, "Repair initiated"), g.perform_repair coords)
    | .selfDestruct => ((true, "Self-destruction initiated"), g.perform_self_destruction coords)
    | .invalidMove => ((false, "Invalid move"), g)
  else ((false, "Invalid move"), g)

/-- Validate and perform a move without logging (`Game.ai_move`, source lines
687-706); identical to `perform_move` except for the dropped logging/printing. -/
def Game.ai_move (g : Game) (coords : CoordPair) : (Bool × String) × Game :=
  let r := g.is_valid_move coords
  if r.1 then
    match r.2.1 with
    | .validMove => ((true, "Move initiated"), (g.set coords.dst (g.get coords.src)).set coords.src none)
    | .attack => ((true, "Attack initiated"), g.perform_attack coords)
    | .repair => ((true, "Repair initiated"), g.perform_repair coords)
    | .selfDestruct => ((true, "Self-destruction initiated"), g.perform_self_destruction coords)
    | .invalidMove => ((false, "Invalid move"), g)
  else ((false, "Invalid move"), g)

/-- Python truthiness of the `is_valid_move` result as used by
`Game.move_candidates` (source line 860): the guard is
`if self.is_valid_move(move):` on the returned 3-tuple, and a nonempty tuple
is always truthy in Python, so the guard never filters anything. -/
def pythonTruthy (r : Bool × MoveType × Option Reason) : Bool :=
  true

/-- Move candidate generation (`Game.move_candidates`, source lines 853-863):
for every own unit, the 4 orthogonal-neighbour moves guarded by the (always
true) truthiness test, plus the unconditional self-move. -/
def Game.move_candidates (g : Game) : List CoordPair :=
  (g.player_units g.next_player).flatMap (fun cu =>
    ((cu.1.iter_adjacent.filter
        (fun dst => pythonTruthy (g.is_valid_move ⟨cu.1, dst⟩))).map
      (fun dst => CoordPair.mk cu.1 dst))
    ++ [CoordPair.mk cu.1 cu.1])

/-- The time-ratio update at the top of `Game.suggest_move` (source lines
886-902), as a pure function of the globals and options it reads:
`last_algo_time` (0 marks the first move of the run), `time_elapsed_last_move`,
`turns_played`, the algorithm choice, `max_depth`, `max_time` and the previous
ratio.  Decimal float constants become exact rationals. -/
def update_time_ratio (last_algo_time time_elapsed_last_move : ℚ) (turns_played : Int)
    (alpha_beta : Bool) (max_depth : Int) (max_time time_ratio : ℚ) : ℚ :=
  let avg_ratio : ℚ := 1 / 4
  let lowest_ratio : ℚ := 1 / 5
  let highest_ratio : ℚ := 17 / 20
  if last_algo_time = 0 then
    if max_depth > 6 then avg_ratio else avg_ratio + 1 / 10
  else if ¬ alpha_beta ∧ turns_played > 15 then avg_ratio
  else if last_algo_time > max_time - time_ratio * max_time - 1 / 2
      ∨ max_time - time_elapsed_last_move < (1 / 5) * max_time then
    max lowest_ratio (time_ratio - 2 / 5)
  else if time_elapsed_last_move < max_time - 1 then
    min highest_ratio (time_ratio + 1 / 100)
  else time_ratio

/-- Board well-formedness: the `list[list[...]]` board really is a
`dim × dim` grid, as `__post_init__` builds it (source line 474).  The Python
code never creates a board of any other shape. -/
def Game.wf_board (g : Game) : Prop :=
  g.board.length = g.options.dim.toNat ∧ ∀ row ∈ g.board, row.length = g.options.dim.toNat

/-- The effect of the self-destruct neighbour loop on the cell it processes:
subtract 2 with the [0,9] clamp, then remove the unit if its health reached 0. -/
def sdEffect (o : Option Unit) : Option Unit :=
  match o with
  | none => none
  | some v =>
    if clamp09 (v.health - 2) = 0 then none
    else some { v with health := clamp09 (v.health - 2) }

/-- A node of the persistent search tree (`TreeNode`, source lines 283-293)
restricted to the fields the structural claims are about: identity, depth,
the maximizing flag, and the ordered children (recorded by id; the Python
children list holds the node objects appended by `Tree.add_node`). -/
structure TreeNodeR where
  id : Nat
  depth : Nat
  maxing : Bool
  children : List Nat
deriving DecidableEq, Repr

/-- The search tree (`Tree`, source lines 309-315): the node table (the
`nodes` dict, keyed by the `id` field) and the current root. -/
structure TreeR where
  nodes : List TreeNodeR
  root : Option Nat
deriving DecidableEq, Repr

/-- The empty tree produced by `Tree.__init__` (source lines 310-315). -/
def emptyTree : TreeR :=
  ⟨[], none⟩

/-- Insert a node (`Tree.add_node`, source lines 317-329): a parentless node
becomes the root with depth 1 and `max = True`; otherwise the node gets
`depth = parent.depth + 1` and `max = not parent.max` and is appended to the
parent's children.  A missing parent raises `KeyError` in Python before any
mutation; that case leaves the tree unchanged here. -/
def TreeR.add_node (t : TreeR) (id : Nat) (parent : Option Nat) : TreeR :=
  match parent with
  | none => { nodes := t.nodes ++ [⟨id, 1, true, []⟩], root := some id }
  | some p =>
    match t.nodes.find? (fun n => n.id == p) with
    | none => t
    | some pn =>
      { nodes :=
          (t.nodes.map (fun n =>
            if n.id = p then { n with children := n.children ++ [id] } else n))
          ++ [⟨id, pn.depth + 1, !pn.maxing, []⟩],
        root := t.root }

/-- A tree built by repeated `add_node` calls, starting from the empty tree;
each op is `(id, parent)`.  In the program ids come from the ever-increasing
global `ID`, so they are pairwise distinct. -/
def buildTree (ops : List (Nat × Option Nat)) : TreeR :=
  ops.foldl (fun t op => t.add_node op.1 op.2) emptyTree

/-- Structural invariant of the search tree maintained by `add_node`: node
ids are unique, the root exists with depth 1 and `max = True`, every recorded
child id names an existing node, and every child is one depth below its parent
with the opposite maximizing flag. -/
def TreeInv (t : TreeR) : Prop :=
  (t.nodes.map TreeNodeR.id).Nodup
  ∧ (∀ r, t.root = some r → r ∈ t.nodes.map TreeNodeR.id)
  ∧ (∀ r, t.root = some r → ∀ n ∈ t.nodes, n.id = r → n.depth = 1 ∧ n.maxing = true)
  ∧ (∀ pn ∈ t.nodes, ∀ cid ∈ pn.children, cid ∈ t.nodes.map TreeNodeR.id)
  ∧ (∀ pn ∈ t.nodes, ∀ cid ∈ pn.children, ∀ cn ∈ t.nodes, cn.id = cid →
      cn.depth = pn.depth + 1 ∧ cn.maxing = !pn.maxing)

/-!
Game trees for the search algorithms (claim C4).  A `GTree` node carries its
maximizing flag (`TreeNode.max`), the children in order, and the single leaf
score both algorithms read when the node is childless — the claim's premise
that minimax and alpha-beta see identical leaf scores (in the program,
`heuristic_1` for minimax and `heuristic_2` for alpha-beta).  Python's
`float("-inf")` / `float("inf")` bounds are modelled by `⊥` / `⊤` of
`WithBot (WithTop ℤ)`.
-/

/-- An already-built search tree with per-node maximizing flags and leaf
scores; a node with no children is a leaf (`if not node.children`). -/
inductive GTree where
  | mk (maxing : Bool) (score : Int) (children : List GTree)

/-- Score domain of the search: integers extended with `-inf` and `inf`. -/
abbrev EInt := WithBot (WithTop ℤ)

/-- A finite score, coerced into the extended domain. -/
def es (s : Int) : EInt :=
  ((s : WithTop ℤ) : EInt)

mutual

/-- Embedded `Tree.minimax` (source lines 350-381): the node's value together
with the number of leaf evaluations (`calculate_evaluations` calls). -/
def minimax : GTree → EInt × Nat
  | .mk _ s [] => (es s, 1)
  | .mk b _ (c :: cs) => minimaxFold b (if b then ⊥ else ⊤) 0 (c :: cs)

/-- The child loop of `Tree.minimax`: fold the running extremum (started at
`-inf` for a max node, `inf` for a min node) and the leaf-evaluation count
over the children. -/
def minimaxFold (b : Bool) (acc : EInt) (cnt : Nat) : List GTree → EInt × Nat
  | [] => (acc, cnt)
  | c :: cs =>
    let p := minimax c
    minimaxFold b (if b then max acc p.1 else min acc p.1) (cnt + p.2) cs

end

mutual

/-- Embedded `Tree._alpha_beta_pruning` (source lines 396-423): the returned
bound together with the number of leaf evaluations.  `Tree.alpha_beta_pruning`
calls it with `alpha = -inf`, `beta = inf` (source line 393). -/
def alpha_beta : GTree → EInt → EInt → EInt × Nat
  | .mk _ s [], _, _ => (es s, 1)
  | .mk true _ (c :: cs), al, be => abMaxLoop (c :: cs) al be
  | .mk false _ (c :: cs), al, be => abMinLoop (c :: cs) al be

/-- The max-node child loop of `_alpha_beta_pruning`: raise alpha on each
child, break as soon as `beta <= alpha`, and return the final alpha. -/
def abMaxLoop : List GTree → EInt → EInt → EInt × Nat
  | [], al, _ => (al, 0)
  | c :: cs, al, be =>
    let p := alpha_beta c al be
    let al2 := max al p.1
    if be ≤ al2 then (al2, p.2)
    else
      let q := abMaxLoop cs al2 be
      (q.1, p.2 + q.2)

/-- The min-node child loop of `_alpha_beta_pruning`: lower beta on each
child, break as soon as `beta <= alpha`, and return the final beta. -/
def abMinLoop : List GTree → EInt → EInt → EInt × Nat
  | [], _, be => (be, 0)
  | c :: cs, al, be =>
    let p := alpha_beta c al be
    let be2 := min be p.1
    if be2 ≤ al then (be2, p.2)
    else
      let q := abMinLoop cs al be2
      (q.1, p.2 + q.2)

end

mutual

/-- The optimal (minimax) value of a tree, written as the textbook
specification: a leaf's score, the maximum of the children's values at a
maximizing node, the minimum at a minimizing node. -/
def optVal : GTree → EInt
  | .mk _ s [] => es s
  | .mk true _ (c :: cs) => optFoldMax (c :: cs)
  | .mk false _ (c :: cs) => optFoldMin (c :: cs)

/-- Maximum of the children's optimal values. -/
def optFoldMax : List GTree → EInt
  | [] => ⊥
  | c :: cs => max (optVal c) (optFoldMax cs)

/-- Minimum of the children's optimal values. -/
def optFoldMin : List GTree → EInt
  | [] => ⊤
  | c :: cs => min (optVal c) (optFoldMin cs)

end

mutual

/-- Number of leaves of a tree (the leaf evaluations a full traversal makes). -/
def leafCount : GTree → Nat
  | .mk _ _ [] => 1
  | .mk _ _ (c :: cs) => leafCountList (c :: cs)

/-- Total number of leaves below a list of children. -/
def leafCountList : List GTree → Nat
  | [] => 0
  | c :: cs => leafCount c + leafCountList cs

end

/-- Running maximum of optimal values, seeded with an alpha bound. -/
def foldMaxFrom (a : EInt) (l : List GTree) : EInt :=
  l.foldl (fun x c => max x (optVal c)) a

/-- Running minimum of optimal values, seeded with a beta bound. -/
def foldMinFrom (b : EInt) (l : List GTree) : EInt :=
  l.foldl (fun x c => min x (optVal c)) b

/-- An empty 5×5 game used to build concrete witness positions. -/
def emptyGame : Game :=
  { board := List.replicate 5 (List.replicate 5 none) }

/-- Witness position: an attacker Program at (2,2) engaged in combat with a
defender Virus at (1,2). -/
def combatGame : Game :=
  (emptyGame.set ⟨2, 2⟩ (some ⟨.Attacker, .Program, 9⟩)).set ⟨1, 2⟩
    (some ⟨.Defender, .Virus, 9⟩)

/-- Witness position: an attacker Virus at (2,2) adjacent to a defender
Program at (2,1). -/
def attackGame : Game :=
  (emptyGame.set ⟨2, 2⟩ (some ⟨.Attacker, .Virus, 9⟩)).set ⟨2, 1⟩
    (some ⟨.Defender, .Program, 9⟩)

/-- Witness position: an attacker AI at (2,2) next to its own damaged Virus
at (2,3). -/
def repairGame : Game :=
  (emptyGame.set ⟨2, 2⟩ (some ⟨.Attacker, .AI, 9⟩)).set ⟨2, 3⟩
    (some ⟨.Attacker, .Virus, 5⟩)

/-- Witness position: an attacker Program at (2,2) about to self-destruct with
a defender Firewall at health 1 on the diagonal neighbour (1,1) and a defender
Tech at health 9 on the orthogonal neighbour (2,3). -/
def selfDestructGame : Game :=
  ((emptyGame.set ⟨2, 2⟩ (some ⟨.Attacker, .Program, 9⟩)).set ⟨1, 1⟩
    (some ⟨.Defender, .Firewall, 1⟩)).set ⟨2, 3⟩ (some ⟨.Defender, .Tech, 9⟩)

/-!
Theorems.  First a toolkit of board-access lemmas about `get` / `set` /
`mod_health` / `remove_dead`, then the claims.
-/

theorem listGetD_set_self {α : Type _} (l : List α) (i : Nat) (a d : α) (h : i < l.length) :
    (l.set i a).getD i d = a := by
  induction l generalizing i with
  | nil => simp at h
  | cons x xs ih =>
    cases i with
    | zero => rfl
    | succ n => simpa using ih n (by simpa using h)

theorem listGetD_set_ne {α : Type _} (l : List α) (i j : Nat) (a : α) (d : α) (h : i ≠ j) :
    (l.set i a).getD j d = l.getD j d := by
  induction l generalizing i j with
  | nil => rfl
  | cons x xs ih =>
    cases i with
    | zero =>
      cases j with
      | zero => exact absurd rfl h
      | succ m => rfl
    | succ n =>
      cases j with
      | zero => rfl
      | succ m => simpa using ih n m (by omega)

theorem listGetD_mem {α : Type _} (l : List α) (i : Nat) (d : α) (h : i < l.length) :
    l.getD i d ∈ l := by
  induction l generalizing i with
  | nil => simp at h
  | cons x xs ih =>
    cases i with
    | zero => simp [List.getD]
    | succ n =>
      have := ih n (by simpa using h)
      simpa [List.getD] using Or.inr (by simpa [List.getD] using this)

theorem valid_coord_iff (g : Game) (c : Coord) :
    g.is_valid_coord c = true ↔
      0 ≤ c.row ∧ c.row < g.options.dim ∧ 0 ≤ c.col ∧ c.col < g.options.dim := by
  simp only [Game.is_valid_coord]
  split <;> rename_i h <;> simp <;> omega

theorem options_set (g : Game) (c : Coord) (v : Option Unit) :
    (g.set c v).options = g.options := by
  rw [Game.set]; split <;> rfl

theorem next_player_set (g : Game) (c : Coord) (v : Option Unit) :
    (g.set c v).next_player = g.next_player := by
  rw [Game.set]; split <;> rfl

theorem is_valid_coord_set (g : Game) (c : Coord) (v : Option Unit) (c' : Coord) :
    (g.set c v).is_valid_coord c' = g.is_valid_coord c' := by
  simp [Game.is_valid_coord, options_set]

theorem wf_board_set (g : Game) (c : Coord) (v : Option Unit) (hw : g.wf_board) :
    (g.set c v).wf_board := by
  obtain ⟨h1, h2⟩ := hw
  rw [Game.set]
  split
  · rename_i hv
    have hvr := (valid_coord_iff g c).mp hv
    have hi : c.row.toNat < g.board.length := by omega
    refine ⟨by simpa using h1, fun row hrow => ?_⟩
    rcases List.mem_or_eq_of_mem_set hrow with h | h
    · exact h2 row h
    · subst h
      have := h2 _ (listGetD_mem g.board c.row.toNat [] hi)
      simpa using this
  · exact ⟨h1, h2⟩

theorem get_some_valid {g : Game} {c : Coord} {u : Unit} (h : g.get c = some u) :
    g.is_valid_coord c = true := by
  rw [Game.get] at h
  by_cases hv : g.is_valid_coord c = true
  · exact hv
  · simp [hv] at h

theorem valid_get_eq_cell {g : Game} {c : Coord} (h : g.is_valid_coord c = true) :
    g.get c = g.cell c := by
  rw [Game.get, if_pos h]

theorem get_some_not_empty {g : Game} {c : Coord} {u : Unit} (h : g.get c = some u) :
    g.is_empty c = false := by
  have hv := get_some_valid h
  rw [valid_get_eq_cell hv] at h
  simp [Game.is_empty, h]

theorem get_set_self (g : Game) (c : Coord) (v : Option Unit) (hw : g.wf_board)
    (hv : g.is_valid_coord c = true) :
    (g.set c v).get c = v := by
  obtain ⟨h1, h2⟩ := hw
  have hvr := (valid_coord_iff g c).mp hv
  have hi : c.row.toNat < g.board.length := by omega
  have hj : c.col.toNat < (g.board.getD c.row.toNat []).length := by
    have := h2 _ (listGetD_mem g.board c.row.toNat [] hi)
    omega
  rw [Game.get, if_pos (by rw [is_valid_coord_set]; exact hv)]
  rw [Game.set, if_pos hv]
  show ((g.board.set _ _).getD _ []).getD _ none = v
  rw [listGetD_set_self _ _ _ _ hi, listGetD_set_self _ _ _ _ hj]

theorem get_set_ne (g : Game) (c c' : Coord) (v : Option Unit) (h : c' ≠ c) :
    (g.set c v).get c' = g.get c' := by
  rw [Game.set]
  split
  · rename_i hv
    have hvr := (valid_coord_iff g c).mp hv
    rw [Game.get, Game.get]
    have hvc' : (Game.is_valid_coord
        { g with board := g.board.set c.row.toNat ((g.board.getD c.row.toNat []).set c.col.toNat v) } c')
        = g.is_valid_coord c' := by
      simp [Game.is_valid_coord]
    rw [hvc']
    by_cases hv' : g.is_valid_coord c' = true
    · rw [if_pos hv', if_pos hv']
      have hvr' := (valid_coord_iff g c').mp hv'
      show ((g.board.set _ _).getD _ []).getD _ none = g.cell c'
      rw [Game.cell]
      by_cases hrow : c'.row.toNat = c.row.toNat
      · have hroweq : c'.row = c.row := by omega
        have hcol : c'.col ≠ c.col := by
          intro hc
          exact h (by cases c; cases c'; simp_all)
        have hcoln : c'.col.toNat ≠ c.col.toNat := by omega
        rw [hrow]
        by_cases hi : c.row.toNat < g.board.length
        · rw [listGetD_set_self _ _ _ _ hi, listGetD_set_ne _ _ _ _ _ (fun hh => hcoln hh.symm)]
        · rw [List.set_eq_of_length_le (by omega)]
      · rw [listGetD_set_ne _ _ _ _ _ (fun hh => hrow hh.symm)]
    · rw [if_neg hv', if_neg hv']
  · rfl

theorem get_flagA (g : Game) (b : Bool) (c : Coord) :
    ({ g with _attacker_has_ai := b } : Game).get c = g.get c :=
  rfl

theorem get_flagD (g : Game) (b : Bool) (c : Coord) :
    ({ g with _defender_has_ai := b } : Game).get c = g.get c :=
  rfl

theorem options_remove_dead (g : Game) (c : Coord) :
    (g.remove_dead c).options = g.options := by
  rw [Game.remove_dead]
  split
  · split
    · split
      · split <;> simp [options_set]
      · simp [options_set]
    · rfl
  · rfl

theorem get_remove_dead_ne (g : Game) (c c' : Coord) (h : c' ≠ c) :
    (g.remove_dead c).get c' = g.get c' := by
  rw [Game.remove_dead]
  split
  · split
    · split
      · split
        · rw [show ∀ gg : Game, ({ gg with _attacker_has_ai := false } : Game).get c' = gg.get c'
              from fun gg => rfl]
          exact get_set_ne g c c' none h
        · rw [show ∀ gg : Game, ({ gg with _defender_has_ai := false } : Game).get c' = gg.get c'
              from fun gg => rfl]
          exact get_set_ne g c c' none h
      · exact get_set_ne g c c' none h
    · rfl
  · rfl

theorem wf_board_remove_dead (g : Game) (c : Coord) (hw : g.wf_board) :
    (g.remove_dead c).wf_board := by
  rw [Game.remove_dead]
  have hws := wf_board_set g c none hw
  split
  · split
    · split
      · split
        · exact ⟨by simpa [options_set] using hws.1, by simpa [options_set] using hws.2⟩
        · exact ⟨by simpa [options_set] using hws.1, by simpa [options_set] using hws.2⟩
      · exact hws
    · exact hw
  · exact hw

theorem options_mod_health (g : Game) (c : Coord) (d : Int) :
    (g.mod_health c d).options = g.options := by
  rw [Game.mod_health]
  split
  · rw [options_remove_dead, options_set]
  · rfl

theorem get_mod_health_ne (g : Game) (c c' : Coord) (d : Int) (h : c' ≠ c) :
    (g.mod_health c d).get c' = g.get c' := by
  rw [Game.mod_health]
  split
  · rw [get_remove_dead_ne _ _ _ h, get_set_ne _ _ _ _ h]
  · rfl

theorem wf_board_mod_health (g : Game) (c : Coord) (d : Int) (hw : g.wf_board) :
    (g.mod_health c d).wf_board := by
  rw [Game.mod_health]
  split
  · exact wf_board_remove_dead _ _ (wf_board_set _ _ _ hw)
  · exact hw

theorem clamp09_nonneg (h : Int) : 0 ≤ clamp09 h := by
  rw [clamp09]; split
  · exact le_refl 0
  · split <;> omega

theorem get_mod_health_self (g : Game) (c : Coord) (d : Int) (u : Unit) (hw : g.wf_board)
    (hu : g.get c = some u) :
    (g.mod_health c d).get c =
      if clamp09 (u.health + d) = 0 then none else some (u.mod_health d) := by
  have hv := get_some_valid hu
  rw [Game.mod_health.eq_def, hu]
  dsimp only
  have hws := wf_board_set g c (some (u.mod_health d)) hw
  have hvs : (g.set c (some (u.mod_health d))).is_valid_coord c = true := by
    rw [is_valid_coord_set]; exact hv
  have hget : (g.set c (some (u.mod_health d))).get c = some (u.mod_health d) :=
    get_set_self g c _ hw hv
  rw [Game.remove_dead.eq_def, hget]
  dsimp only
  have halive : (u.mod_health d).is_alive = decide (0 < clamp09 (u.health + d)) := by
    simp [Unit.is_alive, Unit.mod_health]
  by_cases hz : clamp09 (u.health + d) = 0
  · rw [if_pos hz]
    have hna : ¬ (u.mod_health d).is_alive = true := by
      rw [halive, hz]; simp
    rw [if_pos hna]
    have hset : ((g.set c (some (u.mod_health d))).set c none).get c = none :=
      get_set_self _ c none hws hvs
    split
    · split <;> simpa using hset
    · exact hset
  · rw [if_neg hz]
    have hpos : 0 < clamp09 (u.health + d) := by
      have := clamp09_nonneg (u.health + d)
      omega
    have hal : ¬ ¬ (u.mod_health d).is_alive = true := by
      rw [halive]; simpa using hpos
    rw [if_neg hal]
    exact hget

theorem options_sdStep (g : Game) (c : Coord) :
    (sdStep g c).options = g.options := by
  rw [sdStep]
  split
  · rw [options_mod_health]
  · rfl

theorem wf_board_sdStep (g : Game) (c : Coord) (hw : g.wf_board) :
    (sdStep g c).wf_board := by
  rw [sdStep]
  split
  · exact wf_board_mod_health _ _ _ hw
  · exact hw

theorem get_sdStep_ne (g : Game) (c c' : Coord) (h : c' ≠ c) :
    (sdStep g c).get c' = g.get c' := by
  rw [sdStep]
  split
  · exact get_mod_health_ne _ _ _ _ h
  · rfl

theorem get_sdStep_self (g : Game) (c : Coord) (hw : g.wf_board) :
    (sdStep g c).get c = sdEffect (g.get c) := by
  rw [sdStep]
  match hu : g.get c with
  | none =>
    rw [sdEffect]
    split
    · rename_i hcond
      rw [Game.get] at hu
      rcases hcond with ⟨hv, hne⟩
      rw [if_pos hv] at hu
      rw [Game.is_empty, hu] at hne
      simp at hne
    · rw [Game.get] at hu ⊢
      split <;> simp_all
  | some v =>
    have hv := get_some_valid hu
    have hne := get_some_not_empty hu
    rw [if_pos ⟨hv, by simp [hne]⟩]
    rw [get_mod_health_self g c (-2) v hw hu, sdEffect]
    have : v.health + (-2) = v.health - 2 := by omega
    simp only [Unit.mod_health, this]

theorem mem_iter_adjacent_ne {c c' : Coord} (h : c' ∈ c.iter_adjacent) : c' ≠ c := by
  rcases c with ⟨r, l⟩
  simp only [Coord.iter_adjacent, List.mem_cons, List.mem_singleton,
    List.not_mem_nil, or_false] at h
  rcases h with h | h | h | h <;> subst h <;> intro heq <;>
    simp only [Coord.mk.injEq] at heq <;> omega

theorem not_mem_iter_all8 (c : Coord) : c ∉ c.iter_all8_adjacent := by
  rcases c with ⟨r, l⟩
  intro h
  simp only [Coord.iter_all8_adjacent, List.mem_cons, List.mem_singleton,
    List.not_mem_nil, or_false, Coord.mk.injEq] at h
  omega

theorem nodup_iter_all8 (c : Coord) : c.iter_all8_adjacent.Nodup := by
  rcases c with ⟨r, l⟩
  simp only [Coord.iter_all8_adjacent, List.nodup_cons, List.mem_cons,
    List.mem_singleton, List.not_mem_nil, or_false, List.nodup_nil, and_true,
    Coord.mk.injEq, not_or, true_and, not_false_iff]
  omega

theorem foldl_sdStep_not_mem (L : List Coord) (g : Game) (c : Coord) (h : c ∉ L) :
    (L.foldl sdStep g).get c = g.get c := by
  induction L generalizing g with
  | nil => rfl
  | cons a L ih =>
    have hca : c ≠ a := fun hh => h (hh ▸ List.mem_cons_self a L)
    have hcl : c ∉ L := fun hh => h (List.mem_cons_of_mem a hh)
    show ((L.foldl sdStep (sdStep g a))).get c = g.get c
    rw [ih _ hcl, get_sdStep_ne _ _ _ hca]

theorem foldl_sdStep_mem (L : List Coord) (g : Game) (c : Coord) (hN : L.Nodup)
    (hw : g.wf_board) (hc : c ∈ L) :
    (L.foldl sdStep g).get c = sdEffect (g.get c) := by
  induction L generalizing g with
  | nil => simp at hc
  | cons a L ih =>
    rw [List.nodup_cons] at hN
    rcases List.mem_cons.mp hc with hca | hcl
    · subst hca
      show ((L.foldl sdStep (sdStep g c))).get c = _
      rw [foldl_sdStep_not_mem L _ c hN.1, get_sdStep_self g c hw]
    · have hca : c ≠ a := fun hh => hN.1 (hh ▸ hcl)
      show ((L.foldl sdStep (sdStep g a))).get c = _
      rw [ih (sdStep g a) hN.2 (wf_board_sdStep g a hw) hcl, get_sdStep_ne _ _ _ hca]

theorem clamp09_eq_min (s : Int) (h : 0 ≤ s) : clamp09 s = min 9 s := by
  simp only [clamp09, min_def]
  split
  · omega
  · split <;> split <;> omega

theorem selfDestruct_classified_src {g : Game} {coords : CoordPair}
    (h : g.is_valid_move coords = (true, .selfDestruct, none)) :
    ∃ u, g.get coords.src = some u := by
  rw [Game.is_valid_move.eq_def] at h
  split at h
  · simp at h
  · split at h
    · simp at h
    · rename_i src heq
      exact ⟨src, heq⟩

/-- C5: applying a move classified SelfDestruct sets the source unit's health
to 0 (removing it from the board) and subtracts exactly 2, clamped at 0, from
the health of every occupied cell among the up-to-8 orthogonal and diagonal
neighbours of the source, removing every unit whose health reached 0.  The
board is assumed well-formed and unit healths in the program's invariant
range [0, 9]. -/
theorem self_destruct_effect (g : Game) (coords : CoordPair) (hw : g.wf_board)
    (hcl : g.is_valid_move coords = (true, .selfDestruct, none)) :
    (g.perform_self_destruction coords).get coords.src = none
    ∧ ∀ c ∈ coords.src.iter_all8_adjacent, ∀ v, g.get c = some v →
        0 ≤ v.health → v.health ≤ 9 →
        (g.perform_self_destruction coords).get c =
          if v.health ≤ 2 then none else some { v with health := v.health - 2 } := by
  obtain ⟨u, hu⟩ := selfDestruct_classified_src hcl
  rw [Game.perform_self_destruction, hu]
  simp only [Option.map_some', Option.getD_some]
  have hg1get : (g.mod_health coords.src (-u.health)).get coords.src = none := by
    rw [get_mod_health_self g coords.src (-u.health) u hw hu]
    have hzero : clamp09 (u.health + -u.health) = 0 := by
      have h0 : u.health + -u.health = 0 := by omega
      rw [h0]; rfl
    rw [if_pos hzero]
  have hg1wf : (g.mod_health coords.src (-u.health)).wf_board :=
    wf_board_mod_health _ _ _ hw
  constructor
  · rw [foldl_sdStep_not_mem _ _ _ (not_mem_iter_all8 coords.src), hg1get]
  · intro c hcmem v hv h0 h9
    have hcne : c ≠ coords.src := fun heq =>
      absurd (heq ▸ hcmem) (not_mem_iter_all8 coords.src)
    rw [foldl_sdStep_mem _ _ _ (nodup_iter_all8 _) hg1wf hcmem,
      get_mod_health_ne _ _ _ _ hcne, hv, sdEffect]
    by_cases h2 : v.health ≤ 2
    · have hzero : clamp09 (v.health - 2) = 0 := by
        rw [clamp09]
        split
        · rfl
        · split <;> omega
      rw [if_pos hzero, if_pos h2]
    · have heq2 : clamp09 (v.health - 2) = v.health - 2 := by
        rw [clamp09]
        split
        · omega
        · split <;> omega
      rw [heq2, if_neg (by omega), if_neg h2]

/-- C5 witness: the concrete self-destruct position — the Program at (2,2)
dies, the health-1 Firewall at (1,1) is removed, the health-9 Tech at (2,3)
drops to 7. -/
theorem self_destruct_effect_witness :
    (selfDestructGame.perform_self_destruction ⟨⟨2, 2⟩, ⟨2, 2⟩⟩).get ⟨2, 2⟩ = none
    ∧ (selfDestructGame.perform_self_destruction ⟨⟨2, 2⟩, ⟨2, 2⟩⟩).get ⟨1, 1⟩ = none
    ∧ (selfDestructGame.perform_self_destruction ⟨⟨2, 2⟩, ⟨2, 2⟩⟩).get ⟨2, 3⟩ =
        some ⟨.Defender, .Tech, 7⟩ := by
  have h := self_destruct_effect selfDestructGame ⟨⟨2, 2⟩, ⟨2, 2⟩⟩
    (by rw [Game.wf_board]; exact ⟨by decide, by decide⟩) (by decide)
  refine ⟨h.1, ?_, ?_⟩
  · simpa using h.2 ⟨1, 1⟩ (by decide) ⟨.Defender, .Firewall, 1⟩ (by decide) (by decide) (by decide)
  · simpa using h.2 ⟨2, 3⟩ (by decide) ⟨.Defender, .Tech, 9⟩ (by decide) (by decide) (by decide)

/-- C6 counterexample: in the concrete attack position — attacker Virus at
(2,2) attacking the adjacent defender Program at (2,1), both at health 9 —
the Virus ends at health 6, not the health 8 the claimed 1-point
counter-damage would produce: `damage_table[Program][Virus]` is 3. -/
theorem virus_program_attack_counterexample :
    ((attackGame.perform_attack ⟨⟨2, 2⟩, ⟨2, 1⟩⟩).get ⟨2, 2⟩).map Unit.health = some 6
    ∧ ((attackGame.perform_attack ⟨⟨2, 2⟩, ⟨2, 1⟩⟩).get ⟨2, 2⟩).map Unit.health ≠ some 8 := by
  decide

/-- C6 amended: an Attack by a Virus on an adjacent Defender Program deals 6
damage to the Program while the Program simultaneously deals 3 damage back to
the Virus, each amount clamped at the respective target's current health
(units whose health reaches 0 are removed).  Healths are assumed in the
program's invariant range [0, 9]. -/
theorem virus_program_attack (g : Game) (coords : CoordPair) (u v : Unit)
    (hw : g.wf_board)
    (hu : g.get coords.src = some u) (hup : u.player = .Attacker) (hut : u.type = .Virus)
    (hv : g.get coords.dst = some v) (hvp : v.player = .Defender) (hvt : v.type = .Program)
    (hu0 : 0 ≤ u.health) (hu9 : u.health ≤ 9) (hv0 : 0 ≤ v.health) (hv9 : v.health ≤ 9) :
    (g.perform_attack coords).get coords.dst =
      (if v.health ≤ 6 then none else some { v with health := v.health - 6 })
    ∧ (g.perform_attack coords).get coords.src =
      (if u.health ≤ 3 then none else some { u with health := u.health - 3 }) := by
  have hne : coords.src ≠ coords.dst := by
    intro heq
    rw [heq, hv] at hu
    cases hu
    rw [hvp] at hup
    exact Player.noConfusion hup
  rw [Game.perform_attack.eq_def, hu, hv]
  dsimp only
  have hd1 : damageLookup u.type v.type = 6 := by rw [hut, hvt]; decide
  have hd2 : damageLookup v.type u.type = 3 := by rw [hut, hvt]; decide
  rw [hd1, hd2]
  have hga : (g.mod_health coords.src (-3)).get coords.dst = some v := by
    rw [get_mod_health_ne _ _ _ _ (Ne.symm hne), hv]
  have hgawf : (g.mod_health coords.src (-3)).wf_board := wf_board_mod_health _ _ _ hw
  constructor
  · rw [get_mod_health_self _ coords.dst (-6) v hgawf hga]
    by_cases h6 : v.health ≤ 6
    · have hzero : clamp09 (v.health + -6) = 0 := by
        rw [clamp09]
        split
        · rfl
        · split <;> omega
      rw [if_pos hzero, if_pos h6]
    · have heq6 : clamp09 (v.health + -6) = v.health - 6 := by
        rw [clamp09]
        split
        · omega
        · split <;> omega
      rw [Unit.mod_health, heq6, if_neg (by omega), if_neg h6]
  · rw [get_mod_health_ne _ _ _ _ hne,
      get_mod_health_self g coords.src (-3) u hw hu]
    by_cases h3 : u.health ≤ 3
    · have hzero : clamp09 (u.health + -3) = 0 := by
        rw [clamp09]
        split
        · rfl
        · split <;> omega
      rw [if_pos hzero, if_pos h3]
    · have heq3 : clamp09 (u.health + -3) = u.health - 3 := by
        rw [clamp09]
        split
        · omega
        · split <;> omega
      rw [Unit.mod_health, heq3, if_neg (by omega), if_neg h3]

/-- C6 witness: in the concrete attack position the Program drops to health 3
and the Virus to health 6. -/
theorem virus_program_attack_witness :
    (attackGame.perform_attack ⟨⟨2, 2⟩, ⟨2, 1⟩⟩).get ⟨2, 1⟩ =
      some ⟨.Defender, .Program, 3⟩
    ∧ (attackGame.perform_attack ⟨⟨2, 2⟩, ⟨2, 1⟩⟩).get ⟨2, 2⟩ =
      some ⟨.Attacker, .Virus, 6⟩ := by
  have h := virus_program_attack attackGame ⟨⟨2, 2⟩, ⟨2, 1⟩⟩
    ⟨.Attacker, .Virus, 9⟩ ⟨.Defender, .Program, 9⟩
    (by rw [Game.wf_board]; exact ⟨by decide, by decide⟩)
    (by decide) rfl rfl (by decide) rfl rfl
    (by decide) (by decide) (by decide) (by decide)
  exact ⟨by simpa using h.1, by simpa using h.2⟩

theorem repair_classified_ne {g : Game} {coords : CoordPair} {v : Unit}
    (hv : g.get coords.dst = some v)
    (h : g.is_valid_move coords = (true, .repair, none)) :
    coords.src ≠ coords.dst := by
  intro heq
  rw [Game.is_valid_move.eq_def] at h
  split at h
  · simp at h
  · split at h
    · simp at h
    · rename_i src heq2
      dsimp only at h
      by_cases hp : src.player ≠ g.next_player
      · rw [if_pos hp] at h
        simp at h
      · rw [if_neg hp, if_pos ⟨by rw [hv]; rfl, heq⟩] at h
        simp at h

theorem clamp09_le_9 (s : Int) : clamp09 s ≤ 9 := by
  rw [clamp09]
  split
  · omega
  · split <;> omega

/-- C7: applying a move classified Repair never raises the destination unit's
health above 9 — the table amount is added, clamped at 9 — and leaves the
repairing source unit's cell unchanged. -/
theorem repair_effect (g : Game) (coords : CoordPair) (u v : Unit) (hw : g.wf_board)
    (hu : g.get coords.src = some u) (hv : g.get coords.dst = some v)
    (hcl : g.is_valid_move coords = (true, .repair, none)) :
    (g.perform_repair coords).get coords.src = some u
    ∧ ∀ w, (g.perform_repair coords).get coords.dst = some w →
        w.health = min 9 (v.health + repairLookup u.type v.type) ∧ w.health ≤ 9 := by
  have hne := repair_classified_ne hv hcl
  rw [Game.perform_repair.eq_def, hu, hv]
  dsimp only
  constructor
  · rw [get_mod_health_ne _ _ _ _ hne, hu]
  · intro w hwq
    rw [get_mod_health_self g coords.dst (repairLookup u.type v.type) v hw hv] at hwq
    by_cases hz : clamp09 (v.health + repairLookup u.type v.type) = 0
    · rw [if_pos hz] at hwq
      cases hwq
    · rw [if_neg hz] at hwq
      cases hwq
      have hs : 0 ≤ v.health + repairLookup u.type v.type := by
        by_contra hneg
        exact hz (by rw [clamp09, if_pos (by omega)])
      exact ⟨clamp09_eq_min _ hs, clamp09_le_9 _⟩

/-- C7 witness: the AI at (2,2) repairing its Virus at (2,3) from health 5
leaves the AI untouched and yields health 6 = min 9 (5 + 1) ≤ 9. -/
theorem repair_effect_witness :
    (repairGame.perform_repair ⟨⟨2, 2⟩, ⟨2, 3⟩⟩).get ⟨2, 2⟩ = some ⟨.Attacker, .AI, 9⟩
    ∧ (6 : Int) = min 9 (5 + repairLookup .AI .Virus) ∧ (6 : Int) ≤ 9 := by
  have h := repair_effect repairGame ⟨⟨2, 2⟩, ⟨2, 3⟩⟩ ⟨.Attacker, .AI, 9⟩ ⟨.Attacker, .Virus, 5⟩
    (by rw [Game.wf_board]; exact ⟨by decide, by decide⟩) (by decide) (by decide) (by decide)
  exact ⟨h.1, h.2 ⟨.Attacker, .Virus, 6⟩ (by decide)⟩

theorem enemyAdjacent_of_exists {g : Game} {src : Coord} {p : Player}
    (h : ∃ c ∈ src.iter_adjacent, ∃ e, g.get c = some e ∧ e.player ≠ p) :
    g.enemyAdjacent src p = true := by
  obtain ⟨c, hc, e, he, hep⟩ := h
  rw [Game.enemyAdjacent, List.any_eq_true]
  refine ⟨c, hc, ?_⟩
  have hv := get_some_valid he
  have hne := get_some_not_empty he
  simp [hv, hne, he, hep]

/-- C3: a unit of type AI, Firewall or Program belonging to the side to move
that has an enemy on some orthogonally adjacent cell cannot move to any empty
adjacent destination — classification rejects it as engaged in combat — yet
any move onto an adjacent enemy-occupied cell is classified Attack. -/
theorem engaged_in_combat (g : Game) (src : Coord) (u : Unit)
    (hu : g.get src = some u) (hp : u.player = g.next_player)
    (ht : u.type = .AI ∨ u.type = .Firewall ∨ u.type = .Program)
    (henemy : ∃ c ∈ src.iter_adjacent, ∃ e, g.get c = some e ∧ e.player ≠ u.player) :
    ∀ dst ∈ src.iter_adjacent,
      (g.is_valid_coord dst = true → g.get dst = none →
        g.is_valid_move ⟨src, dst⟩ = (false, .invalidMove, some .engagedInCombat))
      ∧ (∀ e, g.get dst = some e → e.player ≠ u.player →
        g.is_valid_move ⟨src, dst⟩ = (true, .attack, none)) := by
  intro dst hdst
  have hvs : g.is_valid_coord src = true := get_some_valid hu
  have hnd : dst ≠ src := mem_iter_adjacent_ne hdst
  constructor
  · intro hvd hempty
    rw [Game.is_valid_move.eq_def]
    rw [if_neg (by simp [hvs, hvd])]
    dsimp only
    rw [hu]
    dsimp only
    rw [if_neg (by simp [hp]), if_neg (by simp [hempty]), if_neg (by simp [hdst]),
      if_neg (by simp [hempty, dstAllyOf])]
    rw [Game.is_valid_move_afp, if_pos ht, if_neg (by simp [hempty, dstEnemyOf]),
      if_pos (enemyAdjacent_of_exists henemy)]
  · intro e he hep
    rw [Game.is_valid_move.eq_def]
    rw [if_neg (by simp [hvs, get_some_valid he])]
    dsimp only
    rw [hu]
    dsimp only
    rw [if_neg (by simp [hp]), if_neg (fun hand => hnd hand.2.symm),
      if_neg (by simp [hdst]), if_neg (by simp [he, dstAllyOf, hep])]
    rw [Game.is_valid_move_afp, if_pos ht, if_pos (by simp [he, dstEnemyOf, hep])]

/-- C3 witness: the attacker Program at (2,2) adjacent to the defender Virus
at (1,2) cannot step onto the empty cell (3,2) — rejected as engaged in
combat — but attacking the Virus itself is classified Attack. -/
theorem engaged_in_combat_witness :
    combatGame.is_valid_move ⟨⟨2, 2⟩, ⟨3, 2⟩⟩ =
      (false, .invalidMove, some .engagedInCombat)
    ∧ combatGame.is_valid_move ⟨⟨2, 2⟩, ⟨1, 2⟩⟩ = (true, .attack, none) := by
  have h := engaged_in_combat combatGame ⟨2, 2⟩ ⟨.Attacker, .Program, 9⟩
    (by decide) (by decide) (by decide)
    ⟨⟨1, 2⟩, by decide, ⟨.Defender, .Virus, 9⟩, by decide, by decide⟩
  exact ⟨(h ⟨3, 2⟩ (by decide)).1 (by decide) (by decide),
    (h ⟨1, 2⟩ (by decide)).2 ⟨.Defender, .Virus, 9⟩ (by decide) (by decide)⟩

theorem nodup_id_eq {l : List TreeNodeR} (h : (l.map TreeNodeR.id).Nodup)
    {a b : TreeNodeR} (ha : a ∈ l) (hb : b ∈ l) (hid : a.id = b.id) : a = b :=
  List.inj_on_of_nodup_map h ha hb hid

theorem treeInv_add_node (t : TreeR) (nid : Nat) (parent : Option Nat)
    (hInv : TreeInv t) (hfresh : nid ∉ t.nodes.map TreeNodeR.id) :
    TreeInv (t.add_node nid parent) := by
  obtain ⟨hnd, hroot_mem, hroot_prop, hchild_mem, hchild_prop⟩ := hInv
  cases parent with
  | none =>
    simp only [TreeR.add_node]
    refine ⟨?_, ?_, ?_, ?_, ?_⟩
    · rw [List.map_append]
      refine List.nodup_append.mpr ⟨hnd, by simp, ?_⟩
      intro a ha hb
      simp only [List.map_cons, List.map_nil, List.mem_singleton] at hb
      subst hb
      exact hfresh ha
    · intro r hr
      cases hr
      simp
    · intro r hr n hn hid
      cases hr
      rcases List.mem_append.mp hn with h | h
      · exact absurd (List.mem_map.mpr ⟨n, h, hid⟩) hfresh
      · simp only [List.mem_singleton] at h
        subst h
        exact ⟨rfl, rfl⟩
    · intro pn hpn cid hcid
      rcases List.mem_append.mp hpn with h | h
      · rw [List.map_append]
        exact List.mem_append_left _ (hchild_mem pn h cid hcid)
      · simp only [List.mem_singleton] at h
        subst h
        simp at hcid
    · intro pn hpn cid hcid cn hcn hcnid
      rcases List.mem_append.mp hpn with h | h
      · rcases List.mem_append.mp hcn with h2 | h2
        · exact hchild_prop pn h cid hcid cn h2 hcnid
        · simp only [List.mem_singleton] at h2
          subst h2
          have hideq : nid = cid := hcnid
          rw [← hideq] at hcid
          exact absurd (hchild_mem pn h nid hcid) hfresh
      · simp only [List.mem_singleton] at h
        subst h
        simp at hcid
  | some p =>
    simp only [TreeR.add_node]
    cases hfind : t.nodes.find? (fun n => n.id == p) with
    | none =>
      exact ⟨hnd, hroot_mem, hroot_prop, hchild_mem, hchild_prop⟩
    | some pn =>
      have hpn_mem : pn ∈ t.nodes := List.mem_of_find?_eq_some hfind
      have hpn_id : pn.id = p := by simpa using List.find?_some hfind
      have hids : ((t.nodes.map (fun n =>
            if n.id = p then { n with children := n.children ++ [nid] } else n)).map
          TreeNodeR.id) = t.nodes.map TreeNodeR.id := by
        rw [List.map_map]
        apply List.map_congr_left
        intro n _
        by_cases h : n.id = p <;> simp [Function.comp, h]
      have hfdepth : ∀ n : TreeNodeR,
          (if n.id = p then { n with children := n.children ++ [nid] } else n).depth
            = n.depth := by
        intro n
        by_cases h : n.id = p <;> simp [h]
      have hfmax : ∀ n : TreeNodeR,
          (if n.id = p then { n with children := n.children ++ [nid] } else n).maxing
            = n.maxing := by
        intro n
        by_cases h : n.id = p <;> simp [h]
      have hfid : ∀ n : TreeNodeR,
          (if n.id = p then { n with children := n.children ++ [nid] } else n).id = n.id := by
        intro n
        by_cases h : n.id = p <;> simp [h]
      have hfchildren : ∀ n : TreeNodeR,
          (if n.id = p then { n with children := n.children ++ [nid] } else n).children
            = if n.id = p then n.children ++ [nid] else n.children := by
        intro n
        by_cases h : n.id = p <;> simp [h]
      refine ⟨?_, ?_, ?_, ?_, ?_⟩
      · rw [List.map_append, hids]
        refine List.nodup_append.mpr ⟨hnd, by simp, ?_⟩
        intro a ha hb
        simp only [List.map_cons, List.map_nil, List.mem_singleton] at hb
        subst hb
        exact hfresh ha
      · intro r hr
        rw [List.map_append, hids]
        exact List.mem_append_left _ (hroot_mem r hr)
      · intro r hr n hn hid
        rcases List.mem_append.mp hn with h | h
        · obtain ⟨m, hm, rfl⟩ := List.mem_map.mp h
          have hmid : m.id = r := by rw [← hfid m]; exact hid
          have := hroot_prop r hr m hm hmid
          rw [hfdepth, hfmax]
          exact this
        · simp only [List.mem_singleton] at h
          subst h
          have hideq : nid = r := hid
          rw [← hideq] at hr
          exact absurd (hroot_mem nid hr) hfresh
      · intro pn' hpn' cid hcid
        rw [List.map_append, hids]
        rcases List.mem_append.mp hpn' with h | h
        · obtain ⟨m, hm, rfl⟩ := List.mem_map.mp h
          rw [hfchildren] at hcid
          by_cases hmp : m.id = p
          · rw [if_pos hmp] at hcid
            rcases List.mem_append.mp hcid with h2 | h2
            · exact List.mem_append_left _ (hchild_mem m hm cid h2)
            · simp only [List.mem_singleton] at h2
              subst h2
              simp
          · rw [if_neg hmp] at hcid
            exact List.mem_append_left _ (hchild_mem m hm cid hcid)
        · simp only [List.mem_singleton] at h
          subst h
          simp at hcid
      · intro pn' hpn' cid hcid cn hcn hcnid
        rcases List.mem_append.mp hpn' with h | h
        · obtain ⟨m, hm, rfl⟩ := List.mem_map.mp h
          rw [hfchildren] at hcid
          have hold : cid ∈ m.children →
              cn.depth =
                (if m.id = p then { m with children := m.children ++ [nid] } else m).depth + 1
              ∧ cn.maxing =
                !(if m.id = p then { m with children := m.children ++ [nid] } else m).maxing := by
            intro hcid'
            rcases List.mem_append.mp hcn with h2 | h2
            · obtain ⟨k, hk, hkeq⟩ := List.mem_map.mp h2
              have hkid : k.id = cid := by rw [← hfid k, hkeq]; exact hcnid
              have hkk := hchild_prop m hm cid hcid' k hk hkid
              rw [← hkeq, hfdepth, hfmax, hfdepth, hfmax]
              exact hkk
            · simp only [List.mem_singleton] at h2
              have hideq : nid = cid := by rw [← hcnid, h2]
              rw [← hideq] at hcid'
              exact absurd (hchild_mem m hm nid hcid') hfresh
          by_cases hmp : m.id = p
          · rw [if_pos hmp] at hcid
            rcases List.mem_append.mp hcid with h2 | h2
            · exact hold h2
            · simp only [List.mem_singleton] at h2
              rcases List.mem_append.mp hcn with h3 | h3
              · obtain ⟨k, hk, hkeq⟩ := List.mem_map.mp h3
                have hkid : k.id = nid := by rw [← hfid k, hkeq, hcnid, h2]
                exact absurd (List.mem_map.mpr ⟨k, hk, hkid⟩) hfresh
              · simp only [List.mem_singleton] at h3
                have hmpn : m = pn := nodup_id_eq hnd hm hpn_mem (hmp.trans hpn_id.symm)
                rw [h3, if_pos hmp, hmpn]
                exact ⟨rfl, rfl⟩
          · rw [if_neg hmp] at hcid
            exact hold hcid
        · simp only [List.mem_singleton] at h
          subst h
          simp at hcid

theorem add_node_ids_sub (t : TreeR) (nid : Nat) (parent : Option Nat) :
    ∀ x ∈ (t.add_node nid parent).nodes.map TreeNodeR.id,
      x ∈ t.nodes.map TreeNodeR.id ∨ x = nid := by
  intro x hx
  cases parent with
  | none =>
    simp only [TreeR.add_node, List.map_append] at hx
    rcases List.mem_append.mp hx with h | h
    · exact Or.inl h
    · simp only [List.map_cons, List.map_nil, List.mem_singleton] at h
      exact Or.inr h
  | some p =>
    simp only [TreeR.add_node] at hx
    cases hfind : t.nodes.find? (fun n => n.id == p) with
    | none =>
      rw [hfind] at hx
      exact Or.inl hx
    | some pn =>
      rw [hfind] at hx
      simp only [List.map_append] at hx
      rcases List.mem_append.mp hx with h | h
      · rw [List.map_map] at h
        obtain ⟨m, hm, rfl⟩ := List.mem_map.mp h
        left
        refine List.mem_map.mpr ⟨m, hm, ?_⟩
        by_cases hmp : m.id = p <;> simp [Function.comp, hmp]
      · simp only [List.map_cons, List.map_nil, List.mem_singleton] at h
        exact Or.inr h

theorem treeInv_foldl (ops : List (Nat × Option Nat)) :
    ∀ t : TreeR, TreeInv t →
      (∀ op ∈ ops, op.1 ∉ t.nodes.map TreeNodeR.id) →
      (ops.map Prod.fst).Nodup →
      TreeInv (ops.foldl (fun t op => t.add_node op.1 op.2) t) := by
  induction ops with
  | nil =>
    intro t h _ _
    exact h
  | cons op ops ih =>
    intro t hInv hub hnodup
    rw [List.map_cons, List.nodup_cons] at hnodup
    apply ih (t.add_node op.1 op.2)
    · exact treeInv_add_node _ _ _ hInv (hub op (List.mem_cons_self op ops))
    · intro op' hop' hmem
      rcases add_node_ids_sub t op.1 op.2 _ hmem with h | h
      · exact hub op' (List.mem_cons_of_mem op hop') h
      · exact hnodup.1 (h ▸ List.mem_map.mpr ⟨op', hop', rfl⟩)
    · exact hnodup.2

/-- C9: in every tree built by repeated `add_node` calls with pairwise
distinct ids (as the program's global `ID` counter produces), the root has
depth 1 and is maximizing, every recorded child node's depth equals its
parent's depth plus 1, and its maximizing flag is the negation of its
parent's flag. -/
theorem tree_depth_maxing_invariant (ops : List (Nat × Option Nat))
    (hfresh : (ops.map Prod.fst).Nodup) :
    (∀ r, (buildTree ops).root = some r → ∀ n ∈ (buildTree ops).nodes, n.id = r →
      n.depth = 1 ∧ n.maxing = true)
    ∧ ∀ pn ∈ (buildTree ops).nodes, ∀ cid ∈ pn.children,
        ∀ cn ∈ (buildTree ops).nodes, cn.id = cid →
          cn.depth = pn.depth + 1 ∧ cn.maxing = !pn.maxing := by
  have h := treeInv_foldl ops emptyTree
    ⟨by simp [emptyTree], by simp [emptyTree], by simp [emptyTree], by simp [emptyTree],
      by simp [emptyTree]⟩
    (by simp [emptyTree]) hfresh
  exact ⟨h.2.2.1, h.2.2.2.2⟩

/-- C9 witness: building the tree with ops (0, root), (1, child of 0),
(2, child of 0), (3, child of 1) yields node 3 — a child of node 1 — one
depth below node 1 with the opposite flag, and the root node 0 at depth 1
maximizing. -/
theorem tree_depth_maxing_invariant_witness :
    ((⟨3, 3, true, []⟩ : TreeNodeR).depth = (⟨1, 2, false, [3]⟩ : TreeNodeR).depth + 1
      ∧ (⟨3, 3, true, []⟩ : TreeNodeR).maxing = !(⟨1, 2, false, [3]⟩ : TreeNodeR).maxing)
    ∧ ((⟨0, 1, true, [1, 2]⟩ : TreeNodeR).depth = 1
      ∧ (⟨0, 1, true, [1, 2]⟩ : TreeNodeR).maxing = true) := by
  have h := tree_depth_maxing_invariant [(0, none), (1, some 0), (2, some 0), (3, some 1)]
    (by decide)
  exact ⟨h.2 ⟨1, 2, false, [3]⟩ (by decide) 3 (by decide) ⟨3, 3, true, []⟩ (by decide) rfl,
    h.1 0 (by decide) ⟨0, 1, true, [1, 2]⟩ (by decide) rfl⟩

theorem foldMaxFrom_cons (a : EInt) (c : GTree) (cs : List GTree) :
    foldMaxFrom a (c :: cs) = foldMaxFrom (max a (optVal c)) cs := by
  simp [foldMaxFrom]

theorem foldMinFrom_cons (b : EInt) (c : GTree) (cs : List GTree) :
    foldMinFrom b (c :: cs) = foldMinFrom (min b (optVal c)) cs := by
  simp [foldMinFrom]

theorem foldMaxFrom_eq (a : EInt) (l : List GTree) :
    foldMaxFrom a l = max a (optFoldMax l) := by
  induction l generalizing a with
  | nil => simp [foldMaxFrom, optFoldMax]
  | cons c cs ih =>
    rw [foldMaxFrom_cons, ih, optFoldMax, max_assoc]

theorem foldMinFrom_eq (b : EInt) (l : List GTree) :
    foldMinFrom b l = min b (optFoldMin l) := by
  induction l generalizing b with
  | nil => simp [foldMinFrom, optFoldMin]
  | cons c cs ih =>
    rw [foldMinFrom_cons, ih, optFoldMin, min_assoc]

theorem foldMaxFrom_ge (a : EInt) (l : List GTree) : a ≤ foldMaxFrom a l := by
  rw [foldMaxFrom_eq]
  exact le_max_left _ _

theorem foldMinFrom_le (b : EInt) (l : List GTree) : foldMinFrom b l ≤ b := by
  rw [foldMinFrom_eq]
  exact min_le_left _ _

theorem abMaxLoop_ge : ∀ (l : List GTree) (al be : EInt), al ≤ (abMaxLoop l al be).1 := by
  intro l
  induction l with
  | nil => intro al be; exact le_refl al
  | cons c cs ih =>
    intro al be
    rw [abMaxLoop]
    dsimp only
    split
    · exact le_max_left _ _
    · exact le_trans (le_max_left _ _) (ih _ be)

theorem abMinLoop_le : ∀ (l : List GTree) (al be : EInt), (abMinLoop l al be).1 ≤ be := by
  intro l
  induction l with
  | nil => intro al be; exact le_refl be
  | cons c cs ih =>
    intro al be
    rw [abMinLoop]
    dsimp only
    split
    · exact min_le_left _ _
    · exact le_trans (ih al _) (min_le_left _ _)

theorem clamp_absorb_max {γ : Type _} [LinearOrder γ] (a b x : γ) (hab : a ≤ b) :
    max a (min b (max a x)) = max a (min b x) := by
  rcases le_total x a with h | h
  · rw [max_eq_left h, min_eq_right hab,
      max_eq_left (le_trans (min_le_right b x) h), max_self]
  · rw [max_eq_right h]

theorem clamp_cases_max {γ : Type _} [LinearOrder γ] {a b r v : γ} (hab : a < b)
    (hc : max a (min b r) = max a (min b v)) :
    (b ≤ max a r ∧ b ≤ max a v) ∨ (max a r < b ∧ max a r = max a v) := by
  rcases le_or_lt b (max a r) with hbr | hbr
  · left
    refine ⟨hbr, ?_⟩
    have hbr' : b ≤ r := by
      by_contra hrb
      exact absurd hbr (not_le.mpr (max_lt hab (not_le.mp hrb)))
    rw [min_eq_left hbr', max_eq_right hab.le] at hc
    have hxb : min b v = b := by
      rcases le_total (min b v) a with hle | hle
      · rw [max_eq_left hle] at hc
        exact absurd hc.symm (ne_of_lt hab)
      · rw [max_eq_right hle] at hc
        exact hc.symm
    have hbv : b ≤ v := by
      rcases le_total b v with h | h
      · exact h
      · rw [min_eq_right h] at hxb
        exact hxb.ge
    exact le_trans hbv (le_max_right a v)
  · right
    refine ⟨hbr, ?_⟩
    have hrb : r < b := lt_of_le_of_lt (le_max_right a r) hbr
    rw [min_eq_right hrb.le] at hc
    rcases lt_or_le v b with hvb | hvb
    · rw [min_eq_right hvb.le] at hc
      exact hc
    · rw [min_eq_left hvb, max_eq_right hab.le] at hc
      exact absurd hc (ne_of_lt hbr)

theorem clamp_cases_min {γ : Type _} [LinearOrder γ] {a b r v : γ} (hab : a < b)
    (hc : max a (min b r) = max a (min b v)) :
    (min b r ≤ a ∧ min b v ≤ a) ∨ (a < min b r ∧ min b r = min b v) := by
  rcases le_or_lt (min b r) a with hra | hra
  · left
    refine ⟨hra, ?_⟩
    rw [max_eq_left hra] at hc
    rcases le_total (min b v) a with hle | hle
    · exact hle
    · rw [max_eq_right hle] at hc
      exact hc.ge
  · right
    refine ⟨hra, ?_⟩
    rw [max_eq_right hra.le] at hc
    rcases le_or_lt (min b v) a with hva | hva
    · rw [max_eq_left hva] at hc
      exact absurd hc (ne_of_gt hra)
    · rw [max_eq_right hva.le] at hc
      exact hc

mutual

theorem minimax_spec : ∀ t : GTree, minimax t = (optVal t, leafCount t)
  | .mk b s [] => by
    rw [minimax, optVal, leafCount]
  | .mk true s (c :: cs) => by
    rw [minimax, minimaxFold_spec, optVal, leafCount]
    rw [if_pos rfl]
    rw [show foldMaxFrom (if true then (⊥ : EInt) else ⊤) (c :: cs) =
      foldMaxFrom ⊥ (c :: cs) from rfl]
    rw [foldMaxFrom_eq, max_eq_right bot_le, Nat.zero_add]
  | .mk false s (c :: cs) => by
    rw [minimax, minimaxFold_spec, optVal, leafCount]
    rw [if_neg (by simp)]
    rw [show foldMinFrom (if false then (⊥ : EInt) else ⊤) (c :: cs) =
      foldMinFrom ⊤ (c :: cs) from rfl]
    rw [foldMinFrom_eq, min_eq_right le_top, Nat.zero_add]

theorem minimaxFold_spec : ∀ (b : Bool) (acc : EInt) (cnt : Nat) (l : List GTree),
    minimaxFold b acc cnt l =
      ((if b then foldMaxFrom acc l else foldMinFrom acc l), cnt + leafCountList l)
  | b, acc, cnt, [] => by
    cases b <;> simp [minimaxFold, foldMaxFrom, foldMinFrom, leafCountList]
  | b, acc, cnt, c :: cs => by
    rw [minimaxFold]
    rw [minimax_spec c]
    dsimp only
    rw [minimaxFold_spec b _ _ cs, leafCountList]
    cases b with
    | false => simp [foldMinFrom_cons, Nat.add_assoc]
    | true => simp [foldMaxFrom_cons, Nat.add_assoc]

end

mutual

theorem alpha_beta_count_le : ∀ (t : GTree) (al be : EInt),
    (alpha_beta t al be).2 ≤ leafCount t
  | .mk b s [], al, be => by
    rw [alpha_beta, leafCount]
  | .mk true s (c :: cs), al, be => by
    rw [alpha_beta, leafCount]
    exact abMaxLoop_count_le (c :: cs) al be
  | .mk false s (c :: cs), al, be => by
    rw [alpha_beta, leafCount]
    exact abMinLoop_count_le (c :: cs) al be

theorem abMaxLoop_count_le : ∀ (l : List GTree) (al be : EInt),
    (abMaxLoop l al be).2 ≤ leafCountList l
  | [], al, be => by
    rw [abMaxLoop, leafCountList]
  | c :: cs, al, be => by
    rw [abMaxLoop, leafCountList]
    dsimp only
    have h1 := alpha_beta_count_le c al be
    split
    · exact le_trans h1 (Nat.le_add_right _ _)
    · exact Nat.add_le_add h1 (abMaxLoop_count_le cs _ be)

theorem abMinLoop_count_le : ∀ (l : List GTree) (al be : EInt),
    (abMinLoop l al be).2 ≤ leafCountList l
  | [], al, be => by
    rw [abMinLoop, leafCountList]
  | c :: cs, al, be => by
    rw [abMinLoop, leafCountList]
    dsimp only
    have h1 := alpha_beta_count_le c al be
    split
    · exact le_trans h1 (Nat.le_add_right _ _)
    · exact Nat.add_le_add h1 (abMinLoop_count_le cs al _)

end

mutual

theorem alpha_beta_clamp : ∀ (t : GTree) (al be : EInt), al < be →
    max al (min be (alpha_beta t al be).1) = max al (min be (optVal t))
  | .mk b s [], al, be, _ => by
    rw [alpha_beta, optVal]
  | .mk true s (c :: cs), al, be, h => by
    rw [alpha_beta, optVal, abMaxLoop_clamp (c :: cs) al be h, foldMaxFrom_eq,
      clamp_absorb_max al be _ h.le]
  | .mk false s (c :: cs), al, be, h => by
    rw [alpha_beta, optVal, abMinLoop_clamp (c :: cs) al be h, foldMinFrom_eq,
      ← min_assoc, min_self]

theorem abMaxLoop_clamp : ∀ (l : List GTree) (al be : EInt), al < be →
    max al (min be (abMaxLoop l al be).1) = max al (min be (foldMaxFrom al l))
  | [], al, be, _ => by
    simp [abMaxLoop, foldMaxFrom]
  | c :: cs, al, be, h => by
    rw [abMaxLoop]
    dsimp only
    have hc := alpha_beta_clamp c al be h
    rcases clamp_cases_max h hc with ⟨hbr, hbv⟩ | ⟨hbr, heq⟩
    · rw [if_pos hbr]
      dsimp only
      rw [foldMaxFrom_cons]
      have h3 : be ≤ foldMaxFrom (max al (optVal c)) cs :=
        le_trans hbv (foldMaxFrom_ge _ _)
      rw [min_eq_left hbr, min_eq_left h3, max_eq_right h.le]
    · rw [if_neg (not_le.mpr hbr)]
      dsimp only
      have hA := abMaxLoop_ge cs (max al (alpha_beta c al be).1) be
      have hF := foldMaxFrom_ge (max al (alpha_beta c al be).1) cs
      have hih := abMaxLoop_clamp cs (max al (alpha_beta c al be).1) be hbr
      rw [max_eq_right (le_min hbr.le hA), max_eq_right (le_min hbr.le hF)] at hih
      rw [foldMaxFrom_cons, ← heq, hih]

theorem abMinLoop_clamp : ∀ (l : List GTree) (al be : EInt), al < be →
    max al (min be (abMinLoop l al be).1) = max al (min be (foldMinFrom be l))
  | [], al, be, _ => by
    simp [abMinLoop, foldMinFrom]
  | c :: cs, al, be, h => by
    rw [abMinLoop]
    dsimp only
    have hc := alpha_beta_clamp c al be h
    rcases clamp_cases_min h hc with ⟨hra, hrv⟩ | ⟨hra, heq⟩
    · rw [if_pos hra]
      dsimp only
      rw [foldMinFrom_cons, ← min_assoc, min_self, max_eq_left hra]
      have h3 : foldMinFrom (min be (optVal c)) cs ≤ al :=
        le_trans (foldMinFrom_le _ _) hrv
      rw [min_eq_right (le_trans (foldMinFrom_le _ _) (min_le_left _ _)), max_eq_left h3]
    · rw [if_neg (not_le.mpr hra)]
      dsimp only
      have hB := abMinLoop_le cs al (min be (alpha_beta c al be).1)
      have hF := foldMinFrom_le (min be (alpha_beta c al be).1) cs
      have hih := abMinLoop_clamp cs al (min be (alpha_beta c al be).1) hra
      rw [min_eq_right hB, min_eq_right hF] at hih
      rw [min_eq_right (le_trans hB (min_le_left _ _)), hih, foldMinFrom_cons, ← heq,
        min_eq_right (le_trans hF (min_le_left _ _))]

end

/-- C4: on every already-built tree in which minimax and alpha-beta read
identical leaf scores, alpha-beta (run from the root with alpha = -inf,
beta = inf, as `Tree.alpha_beta_pruning` does) evaluates at most as many
leaves as plain minimax, and both return the tree's optimal (minimax) value
at the root. -/
theorem alpha_beta_vs_minimax (t : GTree) :
    (alpha_beta t ⊥ ⊤).2 ≤ (minimax t).2
    ∧ (minimax t).1 = optVal t
    ∧ (alpha_beta t ⊥ ⊤).1 = optVal t := by
  refine ⟨?_, ?_, ?_⟩
  · rw [minimax_spec]
    exact alpha_beta_count_le t ⊥ ⊤
  · rw [minimax_spec]
  · have h := alpha_beta_clamp t ⊥ ⊤ bot_lt_top
    rw [min_eq_right le_top, min_eq_right le_top, max_eq_right bot_le,
      max_eq_right bot_le] at h
    exact h

/-- C2 counterexample: heuristic E1 on the freshly initialized default 5×5
board does not return 0 — the starting material is not symmetric (the attacker
fields 2 Programs and 1 Firewall where the defender fields 2 Firewalls and
1 Program). -/
theorem heuristic_1_initial_not_zero : initialGame.heuristic_1 ≠ 0 := by
  have ha : initialGame.player_units .Attacker =
      [(⟨2, 4⟩, ⟨.Attacker, .Program, 9⟩), (⟨3, 3⟩, ⟨.Attacker, .Firewall, 9⟩),
       (⟨3, 4⟩, ⟨.Attacker, .Virus, 9⟩), (⟨4, 2⟩, ⟨.Attacker, .Program, 9⟩),
       (⟨4, 3⟩, ⟨.Attacker, .Virus, 9⟩), (⟨4, 4⟩, ⟨.Attacker, .AI, 9⟩)] := by decide
  have hd : initialGame.player_units .Defender =
      [(⟨0, 0⟩, ⟨.Defender, .AI, 9⟩), (⟨0, 1⟩, ⟨.Defender, .Tech, 9⟩),
       (⟨0, 2⟩, ⟨.Defender, .Firewall, 9⟩), (⟨1, 0⟩, ⟨.Defender, .Tech, 9⟩),
       (⟨1, 1⟩, ⟨.Defender, .Program, 9⟩), (⟨2, 0⟩, ⟨.Defender, .Firewall, 9⟩)] := by decide
  rw [Game.heuristic_1, ha, hd]
  norm_num [h1Score]

/-- C2 amended: heuristic E1 on the freshly initialized default 5×5 board
returns −9.5 (= −19/2). -/
theorem heuristic_1_initial_value : initialGame.heuristic_1 = -19 / 2 := by
  have ha : initialGame.player_units .Attacker =
      [(⟨2, 4⟩, ⟨.Attacker, .Program, 9⟩), (⟨3, 3⟩, ⟨.Attacker, .Firewall, 9⟩),
       (⟨3, 4⟩, ⟨.Attacker, .Virus, 9⟩), (⟨4, 2⟩, ⟨.Attacker, .Program, 9⟩),
       (⟨4, 3⟩, ⟨.Attacker, .Virus, 9⟩), (⟨4, 4⟩, ⟨.Attacker, .AI, 9⟩)] := by decide
  have hd : initialGame.player_units .Defender =
      [(⟨0, 0⟩, ⟨.Defender, .AI, 9⟩), (⟨0, 1⟩, ⟨.Defender, .Tech, 9⟩),
       (⟨0, 2⟩, ⟨.Defender, .Firewall, 9⟩), (⟨1, 0⟩, ⟨.Defender, .Tech, 9⟩),
       (⟨1, 1⟩, ⟨.Defender, .Program, 9⟩), (⟨2, 0⟩, ⟨.Defender, .Firewall, 9⟩)] := by decide
  rw [Game.heuristic_1, ha, hd]
  norm_num [h1Score]

set_option maxRecDepth 4000 in
/-- C1: on the initial board the enumeration `move_candidates` yields the
move (4,4)→(3,4) — the attacker AI stepping onto its own full-health Virus —
even though `is_valid_move` classifies that candidate as rejected: the guard
`if self.is_valid_move(move):` tests the truthiness of the returned 3-tuple,
which is always true, so rejected candidates are yielded. -/
theorem move_candidates_keeps_rejected :
    (⟨⟨4, 4⟩, ⟨3, 4⟩⟩ : CoordPair) ∈ initialGame.move_candidates
    ∧ (initialGame.is_valid_move ⟨⟨4, 4⟩, ⟨3, 4⟩⟩).1 = false := by
  decide

/-- C10: if move validation classifies the move as invalid then `perform_move`
and `ai_move` both return failure and leave the whole game state — board, side
to move, turn counter and both has-AI flags — unchanged. -/
theorem invalid_move_leaves_state_unchanged (g : Game) (coords : CoordPair)
    (h : (g.is_valid_move coords).1 = false) :
    g.perform_move coords = ((false, "Invalid move"), g)
    ∧ g.ai_move coords = ((false, "Invalid move"), g) := by
  constructor <;> simp [Game.perform_move, Game.ai_move, h]

/-- C10 witness: moving the defender AI during the attacker's turn on the
initial board is invalid and leaves the state untouched. -/
theorem invalid_move_leaves_state_unchanged_witness :
    initialGame.perform_move ⟨⟨0, 0⟩, ⟨0, 1⟩⟩ = ((false, "Invalid move"), initialGame)
    ∧ initialGame.ai_move ⟨⟨0, 0⟩, ⟨0, 1⟩⟩ = ((false, "Invalid move"), initialGame) :=
  invalid_move_leaves_state_unchanged initialGame ⟨⟨0, 0⟩, ⟨0, 1⟩⟩ (by decide)

/-- C8: the per-turn time-ratio update computes, in order: on the first move
(previous algorithm runtime 0), 0.25 when `max_depth > 6` and 0.35 otherwise;
else with plain minimax after more than 15 turns, 0.25; else when the previous
algorithm runtime exceeded `max_time − ratio·max_time − 0.5` or the previous
turn left less than 20% of `max_time` unused, the ratio minus 0.40 floored at
0.20; else when the previous turn left more than 1 second unused, the ratio
plus 0.01 capped at 0.85. -/
theorem update_time_ratio_spec (lat telm : ℚ) (tp : Int) (ab : Bool) (md : Int) (mt r : ℚ) :
    (lat = 0 →
      update_time_ratio lat telm tp ab md mt r = if md > 6 then 1 / 4 else 7 / 20)
    ∧ (lat ≠ 0 → (¬ ab ∧ tp > 15) →
      update_time_ratio lat telm tp ab md mt r = 1 / 4)
    ∧ (lat ≠ 0 → ¬ (¬ ab ∧ tp > 15) →
      (lat > mt - r * mt - 1 / 2 ∨ mt - telm < (1 / 5) * mt) →
      update_time_ratio lat telm tp ab md mt r = max (1 / 5) (r - 2 / 5))
    ∧ (lat ≠ 0 → ¬ (¬ ab ∧ tp > 15) →
      ¬ (lat > mt - r * mt - 1 / 2 ∨ mt - telm < (1 / 5) * mt) →
      telm < mt - 1 →
      update_time_ratio lat telm tp ab md mt r = min (17 / 20) (r + 1 / 100)) := by
  refine ⟨fun h1 => ?_, fun h1 h2 => ?_, fun h1 h2 h3 => ?_, fun h1 h2 h3 h4 => ?_⟩
  · rw [update_time_ratio, if_pos h1]
    split <;> norm_num
  · rw [update_time_ratio, if_neg h1, if_pos h2]
  · rw [update_time_ratio, if_neg h1, if_neg h2, if_pos h3]
  · rw [update_time_ratio, if_neg h1, if_neg h2, if_neg h3, if_pos h4]

/-- C8 witness: one concrete input per branch of the time-ratio update. -/
theorem update_time_ratio_spec_witness :
    update_time_ratio 0 0 0 true 7 5 (1 / 4) = 1 / 4
    ∧ update_time_ratio 1 0 16 false 4 5 (1 / 4) = 1 / 4
    ∧ update_time_ratio 10 0 3 true 4 5 (1 / 4) = 1 / 5
    ∧ update_time_ratio 1 0 3 true 4 5 (1 / 4) = 13 / 50 := by
  refine ⟨?_, ?_, ?_, ?_⟩
  · simpa using (update_time_ratio_spec 0 0 0 true 7 5 (1 / 4)).1 rfl
  · exact (update_time_ratio_spec 1 0 16 false 4 5 (1 / 4)).2.1 (by norm_num) (by norm_num)
  · have h := (update_time_ratio_spec 10 0 3 true 4 5 (1 / 4)).2.2.1 (by norm_num)
      (by norm_num) (by norm_num)
    rw [h]; norm_num
  · have h := (update_time_ratio_spec 1 0 3 true 4 5 (1 / 4)).2.2.2 (by norm_num)
      (by norm_num) (by norm_num) (by norm_num)
    rw [h]; norm_num

end Wargame
